import Mathlib

/-!
# Discovery phase of the sync client (`src/libsync/discovery.h`)

A shallow embedding of the value types declared in `discovery.h`:
the `Result<T>` success-or-error carrier, the `RemoteInfo` / `LocalInfo`
entry records, `ProcessDirectoryJob::PathTuple` with its `addName` child-path
derivation and the data members of `ProcessDirectoryJob` with its constructor,
followed by theorems about them.  The member functions that `discovery.h` only
declares (`processFile`, `handleExcluded`, `subJobFinished`, `abort`) are
modelled from the specification and marked as such.
-/

namespace OCC

/-! ## Strings -/

/-- A `QString`: either the null string (`QString()`) or a non-null sequence of
characters, which may be empty (`QString("")`). -/
inductive QString where
  | null : QString
  | str (data : List Char) : QString
  deriving DecidableEq, Repr

namespace QString

/-- The characters of the string; the null string has none. -/
def toList : QString → List Char
  | null => []
  | str data => data

/-- The `QString::isNull()` test. -/
def isNull : QString → Bool
  | null => true
  | str _ => false

/-- The `QString::isEmpty()` test: true for the null string and for `""`. -/
def isEmpty (s : QString) : Bool :=
  s.toList.isEmpty

/-- The `operator==` of `QString`: compares contents, so the null string and
the empty string compare equal. -/
def eq (a b : QString) : Bool :=
  decide (a.toList = b.toList)

/-- The `operator+(const QString &, QChar)`: the result is never null. -/
def push (s : QString) (c : Char) : QString :=
  str (s.toList ++ [c])

/-- The `operator+(const QString &, const QString &)`: appending a null string
changes nothing, appending to a null string gives the appended string. -/
def append (a b : QString) : QString :=
  match b with
  | null => a
  | str db =>
    match a with
    | null => str db
    | str da => str (da ++ db)

/-- A non-null `QString` holding the characters of a literal. -/
def ofString (s : String) : QString :=
  str s.toList

/-- The characters of a parent path joined with a name: the name alone under an
empty parent, and parent, slash, name otherwise. -/
def joinPath (parent name : List Char) : List Char :=
  if parent.isEmpty then name else parent ++ '/' :: name

/-- The suffix `/n1/.../nk` that a sequence of names adds to a path. -/
def pathSuffix : List QString → List Char
  | [] => []
  | n :: ns => '/' :: n.toList ++ pathSuffix ns

/-- A child path continues its parent: the parent (followed by a slash when it
is not empty) is a prefix of the child, and the child ends with the name. -/
def Continues (parent name child : QString) : Prop :=
  (parent.toList ++ (if parent.isEmpty then [] else ['/'])) <+: child.toList ∧
    name.toList <:+ child.toList

end QString

/-! ## `ProcessDirectoryJob::PathTuple` -/

/-- The four paths addressing one item: `_original` (path as in the DB),
`_target` (path after the sync), `_server` (path on the server) and `_local`
(path locally).  A default-constructed tuple has four null strings. -/
structure PathTuple where
  _original : QString := QString.null
  _target : QString := QString.null
  _server : QString := QString.null
  _local : QString := QString.null
  deriving DecidableEq, Repr

namespace PathTuple

/-- The default-constructed tuple, the root of the walk: every component is empty. -/
def root : PathTuple := {}

/-- The lambda `buildString` of `addName`, given the parent's `_original`, the
already computed `result._original` and the `name`. -/
def buildString (original resultOriginal name other : QString) : QString :=
  if other.eq original then resultOriginal
  else if other.isEmpty then name
  else (other.push '/').append name

/-- The member `PathTuple::addName`. -/
def addName (t : PathTuple) (name : QString) : PathTuple :=
  let resultOriginal :=
    if t._original.isEmpty then name else (t._original.push '/').append name
  { _original := resultOriginal
    _target := buildString t._original resultOriginal name t._target
    _server := buildString t._original resultOriginal name t._server
    _local := buildString t._original resultOriginal name t._local }

/-- Two tuples have the same four components, compared with `operator==`. -/
def sameComponents (p q : PathTuple) : Bool :=
  p._original.eq q._original && p._target.eq q._target &&
    p._server.eq q._server && p._local.eq q._local

/-- The tuple reached from `t` by `addName` with each of `names` in turn. -/
def descend (t : PathTuple) (names : List QString) : PathTuple :=
  names.foldl addName t

end PathTuple

/-! ## `Result<T>` -/

/-- The enumeration `ErrorTag`, whose only value selects the error constructor. -/
inductive ErrorTag where
  | Error : ErrorTag
  deriving DecidableEq, Repr

/-- The ways a read of a `Result` can go wrong. -/
inductive Fault where
  /-- An `ASSERT` whose condition is false. -/
  | assertFailed : Fault
  /-- A read of the member of the union that was not the one constructed. -/
  | inactiveMember : Fault
  deriving DecidableEq, Repr

/-- Modelled from the spec: the macro `ASSERT` of `common/asserts.h`, which is
not part of `discovery.h`.  A wrong-state access "is a fatal invariant
violation, not a recoverable error": a false condition ends the read with a
fault, a true one lets it continue. -/
def ASSERT (cond : Bool) : Except Fault Unit :=
  if cond then Except.ok () else Except.error Fault.assertFailed

/-- The anonymous union of `Result<T>`: storage for either `_result` or
`_errorString`, of which exactly the constructed member is alive. -/
inductive ResultUnion (T : Type) where
  | _result (value : T) : ResultUnion T
  | _errorString (str : QString) : ResultUnion T
  deriving DecidableEq, Repr

/-- The class `Result<T>`: the union and the flag `_isError`. -/
structure Result (T : Type) where
  storage : ResultUnion T
  _isError : Bool
  deriving DecidableEq, Repr

namespace Result

variable {T : Type}

/-- The constructor `Result(T value)`. -/
def ofValue (value : T) : Result T :=
  { storage := ResultUnion._result value, _isError := false }

/-- The constructor `Result(ErrorTag, QString str)`. -/
def ofError (_tag : ErrorTag) (str : QString) : Result T :=
  { storage := ResultUnion._errorString str, _isError := true }

/-- A `Result` is constructed when it comes from one of the two constructors
(the class has no other: the union member of class type deletes the implicit
copy and move constructors). -/
def Constructed (r : Result T) : Prop :=
  (∃ value : T, r = ofValue value) ∨ (∃ str : QString, r = ofError ErrorTag.Error str)

/-- Read of the union member `_result`. -/
def readResult (r : Result T) : Except Fault T :=
  match r.storage with
  | ResultUnion._result value => Except.ok value
  | ResultUnion._errorString _ => Except.error Fault.inactiveMember

/-- Read of the union member `_errorString`. -/
def readErrorString (r : Result T) : Except Fault QString :=
  match r.storage with
  | ResultUnion._result _ => Except.error Fault.inactiveMember
  | ResultUnion._errorString str => Except.ok str

/-- The conversion `explicit operator bool() const`. -/
def toBool (r : Result T) : Bool :=
  !r._isError

/-- The copy read `const T &operator*() const &`. -/
def deref (r : Result T) : Except Fault T := do
  ASSERT (!r._isError)
  r.readResult

/-- The move read `T operator*() &&`: it returns the value moved out of
`_result` together with the `Result` left behind, whose `_result` is in the
moved-from state `movedFrom value` of its type. -/
def derefMove (movedFrom : T → T) (r : Result T) : Except Fault (T × Result T) := do
  ASSERT (!r._isError)
  let value ← r.readResult
  return (value, { r with storage := ResultUnion._result (movedFrom value) })

/-- The member `errorMessage() const`. -/
def errorMessage (r : Result T) : Except Fault QString := do
  ASSERT r._isError
  r.readErrorString

end Result

/-- Whether a read returned instead of faulting. -/
def succeeds {α : Type} : Except Fault α → Bool
  | Except.ok _ => true
  | Except.error _ => false

/-! ## Directory entries -/

/-- A `QByteArray`: null, or a non-null sequence of bytes. -/
inductive QByteArray where
  | null : QByteArray
  | bytes (data : List Nat) : QByteArray
  deriving DecidableEq, Repr

/-- Modelled from the spec: the class `OCC::RemotePermissions`, declared
outside `discovery.h`; the spec calls it a "permission bitset".  The default
value has no bit set. -/
structure RemotePermissions where
  _value : Nat := 0
  deriving DecidableEq, Repr

/-- The struct `RemoteInfo`, with its default member initialisers. -/
structure RemoteInfo where
  name : QString := QString.null
  etag : QByteArray := QByteArray.null
  fileId : QByteArray := QByteArray.null
  checksumHeader : QByteArray := QByteArray.null
  remotePerm : RemotePermissions := {}
  modtime : Int := 0
  size : Int := 0
  isDirectory : Bool := false
  deriving DecidableEq, Repr

/-- The member `RemoteInfo::isValid`. -/
def RemoteInfo.isValid (r : RemoteInfo) : Bool :=
  !r.name.isNull

/-- The struct `LocalInfo`, with its default member initialisers. -/
structure LocalInfo where
  name : QString := QString.null
  modtime : Int := 0
  size : Int := 0
  inode : Nat := 0
  isDirectory : Bool := false
  isHidden : Bool := false
  deriving DecidableEq, Repr

/-- The member `LocalInfo::isValid`. -/
def LocalInfo.isValid (l : LocalInfo) : Bool :=
  !l.name.isNull

/-! ## The per-name decision -/

/-- Modelled from the spec: the class `SyncJournalFileRecord`, declared outside
`discovery.h`.  The database provider "returns the last-synchronized snapshot
for that path, or no record"; of the snapshot the decision compares the
modification time, the size and the content tag. -/
structure SyncJournalFileRecord where
  isValid : Bool := false
  modtime : Int := 0
  size : Int := 0
  etag : QByteArray := QByteArray.null
  deriving DecidableEq, Repr

/-- Modelled from the spec: the outcomes of the per-name decision of section 4.3,
step 3, cases a to e. -/
inductive Decision where
  /-- Case e, no change on either side. -/
  | noOp : Decision
  /-- Case a, "already deleted on both sides; drop the record, no action". -/
  | dropRecord : Decision
  /-- Case b, remote unchanged: "remote-driven delete". -/
  | remoteDrivenDelete : Decision
  /-- Case b, remote changed: "restore (re-download)". -/
  | restore : Decision
  /-- Case c, local unchanged: "local-driven delete". -/
  | localDrivenDelete : Decision
  /-- Case c, local changed: "re-upload". -/
  | reupload : Decision
  /-- Case d, "new only locally". -/
  | upload : Decision
  /-- Case d, "new only remotely". -/
  | download : Decision
  /-- Case d, new on both with equal signature: "silently reconciled". -/
  | reconciled : Decision
  /-- Cases d and e, changed on both sides: "conflict, both versions retained". -/
  | conflict : Decision
  /-- Case e, change on the local side only: transfer towards the server. -/
  | transferToServer : Decision
  /-- Case e, change on the remote side only: transfer towards the local side. -/
  | transferToLocal : Decision
  deriving DecidableEq, Repr

/-- Modelled from the spec: the comparison "database-vs-local" of case e, on
"modification time, size". -/
def localChanged (dbEntry : SyncJournalFileRecord) (localEntry : LocalInfo) : Bool :=
  decide (dbEntry.modtime ≠ localEntry.modtime) || decide (dbEntry.size ≠ localEntry.size)

/-- Modelled from the spec: the comparison "database-vs-remote" of case e, on
"modification time, size, and for remote, content tag". -/
def remoteChanged (dbEntry : SyncJournalFileRecord) (serverEntry : RemoteInfo) : Bool :=
  decide (dbEntry.modtime ≠ serverEntry.modtime) || decide (dbEntry.size ≠ serverEntry.size) ||
    decide (dbEntry.etag ≠ serverEntry.etag)

/-- Modelled from the spec: the "content signature" of case d, "size and, where
available, checksum/etag equality"; a `LocalInfo` carries neither a checksum
nor an etag, so between a local and a remote entry the size is what is available. -/
def equalSignature (localEntry : LocalInfo) (serverEntry : RemoteInfo) : Bool :=
  decide (localEntry.size = serverEntry.size)

/-- Modelled from the spec: the decision of `ProcessDirectoryJob::processFile`,
whose body is not part of `discovery.h`, following section 4.3, step 3, cases
a to e for a name that is not excluded.  A side is present when its entry is
valid; the names a directory decides come from one of the three sides, and
with no side present there is nothing to decide. -/
def decision (localEntry : LocalInfo) (serverEntry : RemoteInfo)
    (dbEntry : SyncJournalFileRecord) : Decision :=
  match dbEntry.isValid, localEntry.isValid, serverEntry.isValid with
  | true, false, false => Decision.dropRecord
  | true, false, true =>
    if remoteChanged dbEntry serverEntry then Decision.restore else Decision.remoteDrivenDelete
  | true, true, false =>
    if localChanged dbEntry localEntry then Decision.reupload else Decision.localDrivenDelete
  | false, true, false => Decision.upload
  | false, false, true => Decision.download
  | false, true, true =>
    if equalSignature localEntry serverEntry then Decision.reconciled else Decision.conflict
  | true, true, true =>
    match localChanged dbEntry localEntry, remoteChanged dbEntry serverEntry with
    | false, false => Decision.noOp
    | true, false => Decision.transferToServer
    | false, true => Decision.transferToLocal
    | true, true => Decision.conflict
  | false, false, false => Decision.noOp

/-- The part of the state of a `ProcessDirectoryJob` that the per-name steps
write: the decisions emitted so far (the signal `itemDiscovered`), the flags
`_childModified` and `_childIgnored`, and the directories whose own decision
was resolved to "retain, blocked". -/
structure JobState where
  discovered : List (PathTuple × Decision) := []
  _childModified : Bool := false
  _childIgnored : Bool := false
  retained : List PathTuple := []
  deriving DecidableEq, Repr

/-- Modelled from the spec: whether a decision is delivered as an action.  The
no-op is not, and neither are case a ("drop the record, no action") and the
equal case of d ("silently reconciled as already equal"). -/
def Decision.emitsAction : Decision → Bool
  | Decision.noOp => false
  | Decision.dropRecord => false
  | Decision.reconciled => false
  | _ => true

/-- Modelled from the spec: `ProcessDirectoryJob::processFile`, whose body is
not part of `discovery.h`.  It takes the decision for the name, delivers it
when it is an action, and "any non-no-op decision sets `childModified` on the
current directory". -/
def processFile (job : JobState) (path : PathTuple) (localEntry : LocalInfo)
    (serverEntry : RemoteInfo) (dbEntry : SyncJournalFileRecord) : JobState :=
  let d := decision localEntry serverEntry dbEntry
  { job with
    discovered := if d.emitsAction then job.discovered ++ [(path, d)] else job.discovered
    _childModified := job._childModified || decide (d ≠ Decision.noOp) }

/-- The metadata of a triple is identical on every present side: each pair of
present sides agrees on what both carry (modification time and size, and the
content tag between the database record and the remote entry). -/
def identicalMetadata (localEntry : LocalInfo) (serverEntry : RemoteInfo)
    (dbEntry : SyncJournalFileRecord) : Prop :=
  (dbEntry.isValid = true → localEntry.isValid = true →
    dbEntry.modtime = localEntry.modtime ∧ dbEntry.size = localEntry.size) ∧
  (dbEntry.isValid = true → serverEntry.isValid = true →
    dbEntry.modtime = serverEntry.modtime ∧ dbEntry.size = serverEntry.size ∧
      dbEntry.etag = serverEntry.etag) ∧
  (localEntry.isValid = true → serverEntry.isValid = true →
    localEntry.modtime = serverEntry.modtime ∧ localEntry.size = serverEntry.size)

instance (localEntry : LocalInfo) (serverEntry : RemoteInfo) (dbEntry : SyncJournalFileRecord) :
    Decidable (identicalMetadata localEntry serverEntry dbEntry) := by
  unfold identicalMetadata
  infer_instance

/-! ## Exclusion, aggregation and the directory's own decision -/

/-- The exclusion provider behind `handleExcluded`: given a path, the
is-directory flag and the is-hidden flag it returns the exclusion verdict. -/
abbrev ExclusionProvider := QString → Bool → Bool → Bool

/-- Modelled from the spec: `ProcessDirectoryJob::handleExcluded`, whose body is
not part of `discovery.h`; it "returns true if the file is excluded".  An
excluded name is marked ignored: `_childIgnored` is set on this directory and
nothing is propagated as a change. -/
def handleExcluded (excludedFiles : ExclusionProvider) (job : JobState) (path : QString)
    (isDirectory isHidden : Bool) : Bool × JobState :=
  if excludedFiles path isDirectory isHidden then (true, { job with _childIgnored := true })
  else (false, job)

/-- Modelled from the spec: `ProcessDirectoryJob::subJobFinished`, whose body is
not part of `discovery.h`.  The flags are aggregates over the descendants, so
a finished child hands what it delivered and its two flags to its parent. -/
def subJobFinished (job child : JobState) : JobState :=
  { discovered := job.discovered ++ child.discovered
    _childModified := job._childModified || child._childModified
    _childIgnored := job._childIgnored || child._childIgnored
    retained := job.retained ++ child.retained }

/-- Whether a decision deletes the item. -/
def Decision.isDelete : Decision → Bool
  | Decision.remoteDrivenDelete => true
  | Decision.localDrivenDelete => true
  | _ => false

/-- The directory's own decision once its children have finished: the
tentative decision, or "retain, blocked". -/
inductive OwnDecision where
  | decided (d : Decision) : OwnDecision
  | retainBlocked : OwnDecision
  deriving DecidableEq, Repr

/-- Modelled from the spec: the resolution of the directory's own decision
(section 4.3, step 4), "accounting for `childModified`/`childIgnored`, which
can override a tentative delete this directory into retain, blocked". -/
def resolveOwnDecision (tentative : Decision) (job : JobState) : OwnDecision :=
  if tentative.isDelete && (job._childModified || job._childIgnored) then
    OwnDecision.retainBlocked
  else OwnDecision.decided tentative

/-- Whether the directory ends up decided as deleted. -/
def OwnDecision.isDelete : OwnDecision → Bool
  | OwnDecision.decided d => d.isDelete
  | OwnDecision.retainBlocked => false

/-- Modelled from the spec: the step of section 4.3, step 3, that a decision
leaves on the current directory without delivering anything: "any non-no-op
decision sets `childModified` on the current directory". -/
def markModified (job : JobState) (d : Decision) : JobState :=
  { job with _childModified := job._childModified || decide (d ≠ Decision.noOp) }

/-- Modelled from the spec: the end of a directory's job (section 4.3, step 4),
run on the state the job has "once all queued and running children have
finished".  The directory's tentative decision (none for an excluded
directory) is resolved against the two flags and then delivered: an action
through `itemDiscovered`, an overridden delete as retained. -/
def finishDirectory (path : PathTuple) (tentative : Option Decision) (job : JobState) :
    JobState :=
  match tentative with
  | none => job
  | some d =>
    match resolveOwnDecision d job with
    | OwnDecision.decided own =>
      if own.emitsAction then { job with discovered := job.discovered ++ [(path, own)] }
      else job
    | OwnDecision.retainBlocked => { job with retained := job.retained ++ [path] }

/-- Modelled from the spec: one name of a directory as the merge step sees it,
with its local entry, remote entry and database record, and, for a directory,
the names it contains. -/
inductive DirEntry where
  | mk (name : QString) (localEntry : LocalInfo) (serverEntry : RemoteInfo)
      (dbEntry : SyncJournalFileRecord) (children : List DirEntry) : DirEntry

namespace DirEntry

/-- Whether the name denotes a directory on a side that lists it. -/
def isDirectory : DirEntry → Bool
  | mk _ localEntry serverEntry _ _ => localEntry.isDirectory || serverEntry.isDirectory

/-- The names the entry contains. -/
def children : DirEntry → List DirEntry
  | mk _ _ _ _ children => children

/-- The path of the entry in `folder`, built with `addName`. -/
def path (folder : PathTuple) : DirEntry → PathTuple
  | mk name _ _ _ _ => folder.addName name

/-- The exclusion verdict for the entry in `folder`: every name of an excluded
directory (`inBlackList`) is excluded, any other name when the provider says so. -/
def excluded (excludedFiles : ExclusionProvider) (inBlackList : Bool) (folder : PathTuple) :
    DirEntry → Bool
  | mk name localEntry serverEntry _ _ =>
    inBlackList || excludedFiles (folder.addName name)._target
      (localEntry.isDirectory || serverEntry.isDirectory) localEntry.isHidden

/-- The tentative decision for the entry in `folder`: none when it is excluded,
the per-name decision otherwise. -/
def tentative (excludedFiles : ExclusionProvider) (inBlackList : Bool) (folder : PathTuple) :
    DirEntry → Option Decision
  | mk name localEntry serverEntry dbEntry _ =>
    if inBlackList || excludedFiles (folder.addName name)._target
        (localEntry.isDirectory || serverEntry.isDirectory) localEntry.isHidden then none
    else some (decision localEntry serverEntry dbEntry)

end DirEntry

mutual
/-- Modelled from the spec: the per-name step of `ProcessDirectoryJob::process`
(section 4.3, step 3), whose body is not part of `discovery.h`, for a job in
`folder`.  The path of the name is built with `addName`.  An excluded name, or
any name of a directory that is itself excluded (`inBlackList`), goes through
the excluded path.  Any other file is decided and delivered by `processFile`.
Any other directory gets a tentative decision, which marks the current
directory but is not delivered; a child job, starting with clear flags, walks
the names it contains, resolves and delivers the directory's own decision when
they are done (`finishDirectory`), and reports to this job. -/
def processEntry (excludedFiles : ExclusionProvider) (inBlackList : Bool) (folder : PathTuple)
    (job : JobState) : DirEntry → JobState
  | DirEntry.mk name localEntry serverEntry dbEntry children =>
    let path := folder.addName name
    let isDirectory := localEntry.isDirectory || serverEntry.isDirectory
    let excluded :=
      handleExcluded (fun p d h => inBlackList || excludedFiles p d h) job path._target
        isDirectory localEntry.isHidden
    if isDirectory then
      let tentative :=
        if excluded.1 then none else some (decision localEntry serverEntry dbEntry)
      let current :=
        if excluded.1 then excluded.2
        else markModified job (decision localEntry serverEntry dbEntry)
      subJobFinished current
        (finishDirectory path tentative
          (processEntries excludedFiles excluded.1 path {} children))
    else if excluded.1 then excluded.2
    else processFile job path localEntry serverEntry dbEntry
/-- Modelled from the spec: the walk of `ProcessDirectoryJob::process` over the
names of one directory, in their merge order. -/
def processEntries (excludedFiles : ExclusionProvider) (inBlackList : Bool) (folder : PathTuple)
    (job : JobState) : List DirEntry → JobState
  | [] => job
  | entry :: entries =>
    processEntries excludedFiles inBlackList folder
      (processEntry excludedFiles inBlackList folder job entry) entries
end

/-- The whole job of the directory `entry` of `folder`, as spawned by
`processEntry`: the walk of the names it contains from clear flags, then the
resolution and delivery of its own decision. -/
def directoryJob (excludedFiles : ExclusionProvider) (inBlackList : Bool) (folder : PathTuple)
    (entry : DirEntry) : JobState :=
  finishDirectory (entry.path folder) (entry.tentative excludedFiles inBlackList folder)
    (processEntries excludedFiles (entry.excluded excludedFiles inBlackList folder)
      (entry.path folder) {} entry.children)

mutual
/-- The walk of a name meets no change: the name is excluded, or its decision
is the no-op, and the same holds inside it when it is a directory. -/
def DirEntry.unchanged (excludedFiles : ExclusionProvider) (inBlackList : Bool)
    (folder : PathTuple) : DirEntry → Bool
  | DirEntry.mk name localEntry serverEntry dbEntry children =>
    let path := folder.addName name
    let isDirectory := localEntry.isDirectory || serverEntry.isDirectory
    let excluded := inBlackList || excludedFiles path._target isDirectory localEntry.isHidden
    (excluded || decide (decision localEntry serverEntry dbEntry = Decision.noOp)) &&
      (!isDirectory || DirEntry.allUnchanged excludedFiles excluded path children)
/-- The walk of a list of names meets no change other than excluded names. -/
def DirEntry.allUnchanged (excludedFiles : ExclusionProvider) (inBlackList : Bool)
    (folder : PathTuple) : List DirEntry → Bool
  | [] => true
  | entry :: entries =>
    DirEntry.unchanged excludedFiles inBlackList folder entry &&
      DirEntry.allUnchanged excludedFiles inBlackList folder entries
end

mutual
/-- The walk of a name meets an excluded file: the name itself, when it is an
excluded file, or one inside it when it is a directory. -/
def DirEntry.hasExcludedFile (excludedFiles : ExclusionProvider) (inBlackList : Bool)
    (folder : PathTuple) : DirEntry → Bool
  | DirEntry.mk name localEntry serverEntry _ children =>
    let path := folder.addName name
    let isDirectory := localEntry.isDirectory || serverEntry.isDirectory
    let excluded := inBlackList || excludedFiles path._target isDirectory localEntry.isHidden
    if isDirectory then DirEntry.anyExcludedFile excludedFiles excluded path children
    else excluded
/-- The walk of a list of names meets an excluded file. -/
def DirEntry.anyExcludedFile (excludedFiles : ExclusionProvider) (inBlackList : Bool)
    (folder : PathTuple) : List DirEntry → Bool
  | [] => false
  | entry :: entries =>
    DirEntry.hasExcludedFile excludedFiles inBlackList folder entry ||
      DirEntry.anyExcludedFile excludedFiles inBlackList folder entries
end

/-- An exclusion provider that excludes the one path `docs/draft.tmp`. -/
def excludeDrafts : ExclusionProvider :=
  fun path _ _ => path.eq (QString.ofString "docs/draft.tmp")

/-- A directory `docs` that is in the database, unchanged locally and absent
remotely, so that its tentative decision is a delete, and that holds one file,
`draft.tmp`, new on the local side. -/
def draftsDirectory : DirEntry :=
  DirEntry.mk (QString.ofString "docs")
    { name := QString.ofString "docs", modtime := 5, isDirectory := true } {}
    { isValid := true, modtime := 5 }
    [DirEntry.mk (QString.ofString "draft.tmp")
      { name := QString.ofString "draft.tmp", size := 9 } {} {} []]

/-! ## Abort and completion -/

/-- Modelled from the spec: a reconciler instance together with the children it
owns, for `ProcessDirectoryJob::abort` and the signal `finished`, whose
emitting code is not part of `discovery.h`.  An instance has its queued and
its running children, may have a listing request in flight (`serverJob`), and
`finishedSignals` counts the `finished()` notifications it has emitted. -/
inductive JobTree where
  | mk (queued : List JobTree) (running : List JobTree) (serverJob : Bool)
      (finishedSignals : Nat) : JobTree

namespace JobTree

/-- The queued children of an instance. -/
def queued : JobTree → List JobTree
  | mk queued _ _ _ => queued

/-- The running children of an instance. -/
def running : JobTree → List JobTree
  | mk _ running _ _ => running

/-- The number of `finished()` notifications the instance itself has emitted. -/
def finishedSignals : JobTree → Nat
  | mk _ _ _ finishedSignals => finishedSignals

mutual
/-- Modelled from the spec: `abort` "cancels any in-flight listing request and
forwards abort to every queued and running child"; the children are driven to
completion and then the instance signals its own completion.  Every instance
is kept at its place in the tree with its count of notifications. -/
def abort : JobTree → JobTree
  | mk queued running _ finishedSignals =>
    mk (abortAll queued) (abortAll running) false (finishedSignals + 1)
/-- Forwarding of `abort` to each job of a collection of children. -/
def abortAll : List JobTree → List JobTree
  | [] => []
  | job :: jobs => abort job :: abortAll jobs
end

mutual
/-- No instance of the tree has completed yet. -/
def pending : JobTree → Bool
  | mk queued running _ finishedSignals =>
    decide (finishedSignals = 0) && allPending queued && allPending running
/-- No instance of the trees of a collection has completed yet. -/
def allPending : List JobTree → Bool
  | [] => true
  | job :: jobs => pending job && allPending jobs
end

mutual
/-- Every instance of the tree has signalled `finished()` exactly once. -/
def signalledOnce : JobTree → Bool
  | mk queued running _ finishedSignals =>
    decide (finishedSignals = 1) && allSignalledOnce queued && allSignalledOnce running
/-- Every instance of the trees of a collection has signalled exactly once. -/
def allSignalledOnce : List JobTree → Bool
  | [] => true
  | job :: jobs => signalledOnce job && allSignalledOnce jobs
end

/-- The `finished()` notifications emitted by the jobs of a collection of children. -/
def childNotifications (jobs : List JobTree) : Nat :=
  (jobs.map finishedSignals).sum

/-- The `finished()` notifications of an instance and of its queued and running
children: one count per child plus the instance's own. -/
def notifications (job : JobTree) : Nat :=
  childNotifications job.queued + childNotifications job.running + job.finishedSignals

end JobTree

/-! ## `ProcessDirectoryJob` -/

/-- The enumeration `ProcessDirectoryJob::QueryMode`. -/
inductive QueryMode where
  | NormalQuery : QueryMode
  | ParentDontExist : QueryMode
  | ParentNotChanged : QueryMode
  | InBlackList : QueryMode
  deriving DecidableEq, Repr

/-- The data members of the class `ProcessDirectoryJob`, with their default
member initialisers, and the `QObject` parent.  The types declared outside
`discovery.h` are parameters: `SyncFileItemPtr`, the pointer to the
`DiscoveryPhase`, and `Ref`, the references to other objects (the parent, the
server job, the child jobs).  A null `QPointer` is `none`. -/
structure ProcessDirectoryJob (SyncFileItemPtr DiscoveryPhasePtr Ref : Type) where
  parent : Ref
  _serverEntries : List RemoteInfo := []
  _localEntries : List LocalInfo := []
  _hasServerEntries : Bool := false
  _hasLocalEntries : Bool := false
  _serverJob : Option Ref := none
  _queuedJobs : List Ref := []
  _runningJobs : List Ref := []
  _dirItem : SyncFileItemPtr
  _queryServer : QueryMode
  _queryLocal : QueryMode
  _discoveryData : DiscoveryPhasePtr
  _currentFolder : PathTuple := {}
  _childModified : Bool := false
  _childIgnored : Bool := false

/-- The constructor `ProcessDirectoryJob(dirItem, queryServer, queryLocal, data, parent)`. -/
def ProcessDirectoryJob.ctor {SyncFileItemPtr DiscoveryPhasePtr Ref : Type}
    (dirItem : SyncFileItemPtr) (queryServer queryLocal : QueryMode) (data : DiscoveryPhasePtr)
    (parent : Ref) : ProcessDirectoryJob SyncFileItemPtr DiscoveryPhasePtr Ref :=
  { parent := parent
    _dirItem := dirItem
    _queryServer := queryServer
    _queryLocal := queryLocal
    _discoveryData := data }

/-! ## Theorems: strings -/

theorem QString.toList_push (s : QString) (c : Char) : (s.push c).toList = s.toList ++ [c] := rfl

theorem QString.toList_append (a b : QString) : (a.append b).toList = a.toList ++ b.toList := by
  cases a <;> cases b <;> simp [QString.append, QString.toList]

theorem QString.toList_slash_append (p n : QString) :
    ((p.push '/').append n).toList = p.toList ++ '/' :: n.toList := by
  simp [QString.toList_append, QString.toList_push]

theorem QString.eq_iff (a b : QString) : a.eq b = true ↔ a.toList = b.toList := by
  simp [QString.eq]

theorem QString.eq_self (a : QString) : a.eq a = true := by
  simp [QString.eq]

theorem QString.slash_append_ne_nil (p n : QString) :
    ((p.push '/').append n).isEmpty = false := by
  simp [QString.isEmpty, QString.toList_slash_append]

/-! ## Theorems: `PathTuple::addName` -/

theorem PathTuple.root_addName (a : QString) :
    PathTuple.root.addName a = { _original := a, _target := a, _server := a, _local := a } := by
  simp [PathTuple.root, PathTuple.addName, PathTuple.buildString, QString.isEmpty,
    QString.toList, QString.eq]

theorem PathTuple.toList_original_addName (t : PathTuple) (n : QString) :
    (t.addName n)._original.toList = QString.joinPath t._original.toList n.toList := by
  unfold PathTuple.addName QString.joinPath
  by_cases h : t._original.toList.isEmpty = true
  · simp [QString.isEmpty, h]
  · simp [QString.isEmpty, h, QString.toList_slash_append]

theorem PathTuple.toList_buildString (t : PathTuple) (n other : QString) :
    (PathTuple.buildString t._original (t.addName n)._original n other).toList
      = QString.joinPath other.toList n.toList := by
  unfold PathTuple.buildString
  by_cases he : other.eq t._original = true
  · rw [if_pos he, PathTuple.toList_original_addName, (QString.eq_iff _ _).mp he]
  · rw [if_neg he]
    unfold QString.joinPath
    by_cases h : other.toList.isEmpty = true
    · simp [QString.isEmpty, h]
    · simp [QString.isEmpty, h, QString.toList_slash_append]

theorem PathTuple.toList_target_addName (t : PathTuple) (n : QString) :
    (t.addName n)._target.toList = QString.joinPath t._target.toList n.toList :=
  PathTuple.toList_buildString t n t._target

theorem PathTuple.toList_server_addName (t : PathTuple) (n : QString) :
    (t.addName n)._server.toList = QString.joinPath t._server.toList n.toList :=
  PathTuple.toList_buildString t n t._server

theorem PathTuple.toList_local_addName (t : PathTuple) (n : QString) :
    (t.addName n)._local.toList = QString.joinPath t._local.toList n.toList :=
  PathTuple.toList_buildString t n t._local

theorem QString.continues_of_joinPath (parent name child : QString)
    (h : child.toList = QString.joinPath parent.toList name.toList) :
    QString.Continues parent name child := by
  unfold QString.Continues QString.isEmpty
  rw [h]
  unfold QString.joinPath
  by_cases he : parent.toList.isEmpty = true
  · have hnil : parent.toList = [] := List.isEmpty_iff.mp he
    simp [hnil]
  · simp only [he, Bool.false_eq_true, if_false]
    refine ⟨?_, ?_⟩
    · simp
    · exact ⟨parent.toList ++ ['/'], by simp⟩

theorem PathTuple.continues_addName (t : PathTuple) (n : QString) :
    QString.Continues t._original n (t.addName n)._original ∧
    QString.Continues t._target n (t.addName n)._target ∧
    QString.Continues t._server n (t.addName n)._server ∧
    QString.Continues t._local n (t.addName n)._local :=
  ⟨QString.continues_of_joinPath _ _ _ (PathTuple.toList_original_addName t n),
   QString.continues_of_joinPath _ _ _ (PathTuple.toList_target_addName t n),
   QString.continues_of_joinPath _ _ _ (PathTuple.toList_server_addName t n),
   QString.continues_of_joinPath _ _ _ (PathTuple.toList_local_addName t n)⟩

theorem QString.joinPath_of_ne_nil (p n : List Char) (h : p ≠ []) :
    QString.joinPath p n = p ++ '/' :: n := by
  unfold QString.joinPath
  cases p with
  | nil => exact absurd rfl h
  | cons c cs => simp

theorem QString.toList_ne_nil_of_isEmpty (s : QString) (h : s.isEmpty = false) :
    s.toList ≠ [] := by
  intro hnil
  simp [QString.isEmpty, hnil] at h

theorem PathTuple.descend_cons (t : PathTuple) (n : QString) (ns : List QString) :
    t.descend (n :: ns) = (t.addName n).descend ns := rfl

/-- C1, as stated, fails: with the empty name `a` and `b = "x"`, two calls from
the root give `x` in every component while the joined name `"" + "/" + "x"`
gives `/x`; the two tuples differ in all four components. -/
theorem addName_assoc_root_counterexample :
    ((PathTuple.root.addName (QString.ofString "")).addName (QString.ofString "x")
        = { _original := QString.ofString "x", _target := QString.ofString "x",
            _server := QString.ofString "x", _local := QString.ofString "x" }) ∧
    (PathTuple.root.addName (((QString.ofString "").push '/').append (QString.ofString "x"))
        = { _original := QString.ofString "/x", _target := QString.ofString "/x",
            _server := QString.ofString "/x", _local := QString.ofString "/x" }) ∧
    PathTuple.sameComponents
      ((PathTuple.root.addName (QString.ofString "")).addName (QString.ofString "x"))
      (PathTuple.root.addName (((QString.ofString "").push '/').append (QString.ofString "x")))
      = false := by
  decide

/-- C1, amended: for every non-empty name `a` and every name `b`, two successive
`addName` calls from the empty root give the same four components as one call
with the joined name `a + "/" + b`. -/
theorem addName_assoc_root (a b : QString) (ha : a.isEmpty = false) :
    (PathTuple.root.addName a).addName b
      = PathTuple.root.addName ((a.push '/').append b) := by
  rw [PathTuple.root_addName, PathTuple.root_addName]
  simp [PathTuple.addName, PathTuple.buildString, ha, QString.eq_self]

theorem addName_assoc_root_witness :
    (QString.ofString "docs").isEmpty = false ∧
    (PathTuple.root.addName (QString.ofString "docs")).addName (QString.ofString "report.txt")
      = PathTuple.root.addName
          (((QString.ofString "docs").push '/').append (QString.ofString "report.txt")) :=
  ⟨by decide, addName_assoc_root (QString.ofString "docs") (QString.ofString "report.txt")
    (by decide)⟩

/-- C2: `t.addName n` has `_original` equal to `n` when `t._original` is empty
and to `t._original + "/" + n` otherwise; each of `_target`, `_server`,
`_local` is the child's `_original` when the parent's component equals the
parent's `_original`, and otherwise `n` when the parent's component is empty
and that component `+ "/" + n` when it is not. -/
theorem addName_components (t : PathTuple) (n : QString) :
    (t.addName n)._original
      = (if t._original.isEmpty then n else (t._original.push '/').append n) ∧
    (t.addName n)._target
      = (if t._target.eq t._original then (t.addName n)._original
         else if t._target.isEmpty then n else (t._target.push '/').append n) ∧
    (t.addName n)._server
      = (if t._server.eq t._original then (t.addName n)._original
         else if t._server.isEmpty then n else (t._server.push '/').append n) ∧
    (t.addName n)._local
      = (if t._local.eq t._original then (t.addName n)._original
         else if t._local.isEmpty then n else (t._local.push '/').append n) :=
  ⟨rfl, rfl, rfl, rfl⟩

/-- C8: for every tuple `t` reached from the empty root by repeated `addName`
and every two names `a` and `b`, each of the four components of `t.addName a`
and of `t.addName b` has the corresponding component of `t` as a prefix
(followed by a slash when that component is not empty) and ends with `a`,
respectively `b`. -/
theorem sibling_paths_continue_parent (names : List QString) (a b : QString) :
    (QString.Continues (PathTuple.root.descend names)._original a
        ((PathTuple.root.descend names).addName a)._original ∧
      QString.Continues (PathTuple.root.descend names)._target a
        ((PathTuple.root.descend names).addName a)._target ∧
      QString.Continues (PathTuple.root.descend names)._server a
        ((PathTuple.root.descend names).addName a)._server ∧
      QString.Continues (PathTuple.root.descend names)._local a
        ((PathTuple.root.descend names).addName a)._local) ∧
    (QString.Continues (PathTuple.root.descend names)._original b
        ((PathTuple.root.descend names).addName b)._original ∧
      QString.Continues (PathTuple.root.descend names)._target b
        ((PathTuple.root.descend names).addName b)._target ∧
      QString.Continues (PathTuple.root.descend names)._server b
        ((PathTuple.root.descend names).addName b)._server ∧
      QString.Continues (PathTuple.root.descend names)._local b
        ((PathTuple.root.descend names).addName b)._local) :=
  ⟨PathTuple.continues_addName _ a, PathTuple.continues_addName _ b⟩

/-- C9: for every tuple `t` whose four components are all non-empty and every
sequence of names `n1..nk`, applying `addName` with `n1..nk` in turn gives a
tuple in which each component is the corresponding component of `t` followed
by the same suffix `/n1/.../nk`. -/
theorem addName_descend_suffix (names : List QString) (t : PathTuple)
    (ho : t._original.isEmpty = false) (ht : t._target.isEmpty = false)
    (hs : t._server.isEmpty = false) (hl : t._local.isEmpty = false) :
    (t.descend names)._original.toList = t._original.toList ++ QString.pathSuffix names ∧
    (t.descend names)._target.toList = t._target.toList ++ QString.pathSuffix names ∧
    (t.descend names)._server.toList = t._server.toList ++ QString.pathSuffix names ∧
    (t.descend names)._local.toList = t._local.toList ++ QString.pathSuffix names := by
  induction names generalizing t with
  | nil => simp [PathTuple.descend, QString.pathSuffix]
  | cons n ns ih =>
    have eo := PathTuple.toList_original_addName t n
    have et := PathTuple.toList_target_addName t n
    have es := PathTuple.toList_server_addName t n
    have el := PathTuple.toList_local_addName t n
    rw [QString.joinPath_of_ne_nil _ _ (QString.toList_ne_nil_of_isEmpty _ ho)] at eo
    rw [QString.joinPath_of_ne_nil _ _ (QString.toList_ne_nil_of_isEmpty _ ht)] at et
    rw [QString.joinPath_of_ne_nil _ _ (QString.toList_ne_nil_of_isEmpty _ hs)] at es
    rw [QString.joinPath_of_ne_nil _ _ (QString.toList_ne_nil_of_isEmpty _ hl)] at el
    have h := ih (t.addName n) (by simp [QString.isEmpty, eo]) (by simp [QString.isEmpty, et])
      (by simp [QString.isEmpty, es]) (by simp [QString.isEmpty, el])
    rw [PathTuple.descend_cons]
    simp only [QString.pathSuffix]
    rw [h.1, h.2.1, h.2.2.1, h.2.2.2, eo, et, es, el]
    simp

theorem addName_descend_suffix_witness :
    (QString.ofString "old").isEmpty = false ∧ (QString.ofString "new").isEmpty = false ∧
    (({ _original := QString.ofString "old", _target := QString.ofString "new",
        _server := QString.ofString "old", _local := QString.ofString "new" } :
        PathTuple).descend [QString.ofString "a", QString.ofString "b"])._target.toList
      = (QString.ofString "new").toList
          ++ QString.pathSuffix [QString.ofString "a", QString.ofString "b"] :=
  ⟨by decide, by decide,
    (addName_descend_suffix [QString.ofString "a", QString.ofString "b"]
      { _original := QString.ofString "old", _target := QString.ofString "new",
        _server := QString.ofString "old", _local := QString.ofString "new" }
      (by decide) (by decide) (by decide) (by decide)).2.1⟩

/-! ## Theorems: `Result<T>` -/

/-- C3: a `Result` constructed from a value `v` converts to boolean true, its
copy read returns exactly `v`, and `errorMessage()` faults on its
`ASSERT(_isError)`. -/
theorem Result_ofValue_reads {T : Type} (v : T) :
    (Result.ofValue v).toBool = true ∧
    (Result.ofValue v).deref = Except.ok v ∧
    (Result.ofValue v).errorMessage = Except.error Fault.assertFailed :=
  ⟨rfl, rfl, rfl⟩

/-- C4: a `Result` constructed with the `Error` tag and a message `s` converts
to boolean false, `errorMessage()` returns exactly `s`, and both the copy read
and the move read fault on their `ASSERT(!_isError)` instead of returning a
value. -/
theorem Result_ofError_reads {T : Type} (movedFrom : T → T) (s : QString) :
    (Result.ofError ErrorTag.Error s : Result T).toBool = false ∧
    (Result.ofError ErrorTag.Error s : Result T).errorMessage = Except.ok s ∧
    (Result.ofError ErrorTag.Error s : Result T).deref = Except.error Fault.assertFailed ∧
    (Result.ofError ErrorTag.Error s : Result T).derefMove movedFrom
      = Except.error Fault.assertFailed :=
  ⟨rfl, rfl, rfl, rfl⟩

/-- C5: every constructed `Result` holds exactly one of value and error
message: its flag tells which member the union holds, exactly one of the value
read and `errorMessage()` returns without faulting, the boolean conversion is
true if and only if it is the value read that returns, and a value read (copy
or move) behind a true boolean conversion never fails its assertion. -/
theorem Result_exactly_one {T : Type} (movedFrom : T → T) (r : Result T)
    (h : r.Constructed) :
    (r.toBool = true ↔ ∃ v, r.storage = ResultUnion._result v) ∧
    (r.toBool = false ↔ ∃ s, r.storage = ResultUnion._errorString s) ∧
    Xor' (succeeds r.deref = true) (succeeds r.errorMessage = true) ∧
    (r.toBool = true ↔ succeeds r.deref = true) ∧
    (r.toBool = true → succeeds r.deref = true ∧ succeeds (r.derefMove movedFrom) = true) := by
  rcases h with ⟨v, rfl⟩ | ⟨s, rfl⟩
  · refine ⟨?_, ?_, ?_, ?_, ?_⟩
    · exact ⟨fun _ => ⟨v, rfl⟩, fun _ => rfl⟩
    · simp [Result.ofValue, Result.toBool]
    · exact Or.inl ⟨rfl, fun hf => Bool.false_ne_true hf⟩
    · exact ⟨fun _ => rfl, fun _ => rfl⟩
    · exact fun _ => ⟨rfl, rfl⟩
  · refine ⟨?_, ?_, ?_, ?_, ?_⟩
    · simp [Result.ofError, Result.toBool]
    · exact ⟨fun _ => ⟨s, rfl⟩, fun _ => rfl⟩
    · exact Or.inr ⟨rfl, fun hf => Bool.false_ne_true hf⟩
    · exact ⟨fun hf => absurd hf Bool.false_ne_true, fun hf => absurd hf Bool.false_ne_true⟩
    · simp [Result.ofError, Result.toBool]

theorem Result_exactly_one_witness :
    (Result.ofValue (7 : Nat)).Constructed ∧
    Xor' (succeeds (Result.ofValue (7 : Nat)).deref = true)
      (succeeds (Result.ofValue (7 : Nat)).errorMessage = true) :=
  ⟨Or.inl ⟨7, rfl⟩,
    (Result_exactly_one (fun _ => 0) (Result.ofValue (7 : Nat)) (Or.inl ⟨7, rfl⟩)).2.2.1⟩

/-- C6: for every `Result` the move read yields the same outcome as the copy
read; on a `Result` constructed from a value both return that value, and on an
error `Result` both fault. -/
theorem Result_derefMove_eq_deref {T : Type} (movedFrom : T → T) :
    (∀ r : Result T, Except.map Prod.fst (r.derefMove movedFrom) = r.deref) ∧
    (∀ v : T, (Result.ofValue v).deref = Except.ok v ∧
      Except.map Prod.fst ((Result.ofValue v).derefMove movedFrom) = Except.ok v) ∧
    (∀ s : QString,
      (Result.ofError ErrorTag.Error s : Result T).deref = Except.error Fault.assertFailed ∧
      (Result.ofError ErrorTag.Error s : Result T).derefMove movedFrom
        = Except.error Fault.assertFailed) := by
  refine ⟨?_, fun v => ⟨rfl, rfl⟩, fun s => ⟨rfl, rfl⟩⟩
  rintro ⟨storage, isError⟩
  cases isError <;> cases storage <;> rfl

/-! ## Theorems: directory entries -/

/-- C7: a `RemoteInfo` is valid exactly when its name is not the null string,
and so is a `LocalInfo`; a default-constructed `RemoteInfo` or `LocalInfo` is
invalid, and validity depends on no field other than the name. -/
theorem isValid_iff_name_set :
    (∀ r : RemoteInfo, r.isValid = true ↔ r.name.isNull = false) ∧
    (∀ l : LocalInfo, l.isValid = true ↔ l.name.isNull = false) ∧
    ({} : RemoteInfo).isValid = false ∧
    ({} : LocalInfo).isValid = false ∧
    (∀ (name : QString) (etag fileId checksumHeader etag2 fileId2 checksumHeader2 : QByteArray)
        (remotePerm remotePerm2 : RemotePermissions) (modtime size modtime2 size2 : Int)
        (isDirectory isDirectory2 : Bool),
      RemoteInfo.isValid ⟨name, etag, fileId, checksumHeader, remotePerm, modtime, size,
          isDirectory⟩
        = RemoteInfo.isValid ⟨name, etag2, fileId2, checksumHeader2, remotePerm2, modtime2,
            size2, isDirectory2⟩) ∧
    (∀ (name : QString) (modtime size modtime2 size2 : Int) (inode inode2 : Nat)
        (isDirectory isHidden isDirectory2 isHidden2 : Bool),
      LocalInfo.isValid ⟨name, modtime, size, inode, isDirectory, isHidden⟩
        = LocalInfo.isValid ⟨name, modtime2, size2, inode2, isDirectory2, isHidden2⟩) := by
  refine ⟨?_, ?_, rfl, rfl, ?_, ?_⟩
  · intro r
    simp [RemoteInfo.isValid]
  · intro l
    simp [LocalInfo.isValid]
  · intros
    rfl
  · intros
    rfl

/-! ## Theorems: the per-name decision -/

/-- C10, as stated, fails: a name that is new on the local side only (no
database record, no remote entry) has identical metadata on every present
side, and its decision is an upload, which is delivered and sets
`_childModified`. -/
theorem processFile_identical_counterexample :
    identicalMetadata { name := QString.ofString "f", size := 1 } {} {} ∧
    decision { name := QString.ofString "f", size := 1 } {} {} = Decision.upload ∧
    processFile {} (PathTuple.root.addName (QString.ofString "f"))
        { name := QString.ofString "f", size := 1 } {} {}
      = { discovered := [(PathTuple.root.addName (QString.ofString "f"), Decision.upload)]
          _childModified := true } := by
  decide

/-- C10, amended: for a name present in the database, locally and remotely with
identical metadata on the three sides, the decision taken by `processFile` is
the no-op: nothing is delivered and `_childModified` is left as it was. -/
theorem processFile_identical_noOp (job : JobState) (path : PathTuple)
    (localEntry : LocalInfo) (serverEntry : RemoteInfo) (dbEntry : SyncJournalFileRecord)
    (hdb : dbEntry.isValid = true) (hlocal : localEntry.isValid = true)
    (hserver : serverEntry.isValid = true)
    (h : identicalMetadata localEntry serverEntry dbEntry) :
    decision localEntry serverEntry dbEntry = Decision.noOp ∧
    processFile job path localEntry serverEntry dbEntry = job := by
  obtain ⟨h1, h2, _⟩ := h
  obtain ⟨hm1, hs1⟩ := h1 hdb hlocal
  obtain ⟨hm2, hs2, he2⟩ := h2 hdb hserver
  have hd : decision localEntry serverEntry dbEntry = Decision.noOp := by
    simp [decision, hdb, hlocal, hserver, localChanged, remoteChanged, ← hm1, ← hs1, ← hm2,
      ← hs2, ← he2]
  refine ⟨hd, ?_⟩
  simp [processFile, hd, Decision.emitsAction]

theorem processFile_identical_noOp_witness :
    identicalMetadata { name := QString.ofString "f", modtime := 5, size := 100 }
      { name := QString.ofString "f", modtime := 5, size := 100 }
      { isValid := true, modtime := 5, size := 100 } ∧
    processFile { _childModified := false } (PathTuple.root.addName (QString.ofString "f"))
        { name := QString.ofString "f", modtime := 5, size := 100 }
        { name := QString.ofString "f", modtime := 5, size := 100 }
        { isValid := true, modtime := 5, size := 100 }
      = { _childModified := false } :=
  ⟨by decide,
    (processFile_identical_noOp { _childModified := false }
      (PathTuple.root.addName (QString.ofString "f"))
      { name := QString.ofString "f", modtime := 5, size := 100 }
      { name := QString.ofString "f", modtime := 5, size := 100 }
      { isValid := true, modtime := 5, size := 100 } rfl rfl rfl (by decide)).2⟩

/-! ## Theorems: exclusion and aggregation -/

theorem processFile_childIgnored (job : JobState) (path : PathTuple) (localEntry : LocalInfo)
    (serverEntry : RemoteInfo) (dbEntry : SyncJournalFileRecord) :
    (processFile job path localEntry serverEntry dbEntry)._childIgnored = job._childIgnored := rfl

theorem processFile_of_noOp (job : JobState) (path : PathTuple)
    (localEntry : LocalInfo) (serverEntry : RemoteInfo) (dbEntry : SyncJournalFileRecord)
    (h : decision localEntry serverEntry dbEntry = Decision.noOp) :
    processFile job path localEntry serverEntry dbEntry = job := by
  simp [processFile, h, Decision.emitsAction]

theorem markModified_noOp (job : JobState) : markModified job Decision.noOp = job := by
  simp [markModified]

theorem finishDirectory_childIgnored (path : PathTuple) (tentative : Option Decision)
    (job : JobState) : (finishDirectory path tentative job)._childIgnored = job._childIgnored := by
  unfold finishDirectory
  cases tentative with
  | none => rfl
  | some d =>
    simp only
    cases resolveOwnDecision d job with
    | decided own =>
      simp only
      cases own.emitsAction <;> rfl
    | retainBlocked => rfl

theorem finishDirectory_childModified (path : PathTuple) (tentative : Option Decision)
    (job : JobState) :
    (finishDirectory path tentative job)._childModified = job._childModified := by
  unfold finishDirectory
  cases tentative with
  | none => rfl
  | some d =>
    simp only
    cases resolveOwnDecision d job with
    | decided own =>
      simp only
      cases own.emitsAction <;> rfl
    | retainBlocked => rfl

theorem finishDirectory_noOp (path : PathTuple) (job : JobState) :
    finishDirectory path (some Decision.noOp) job = job := by
  simp [finishDirectory, resolveOwnDecision, Decision.isDelete, Decision.emitsAction]

theorem processEntry_excluded (excludedFiles : ExclusionProvider) (inBlackList : Bool)
    (folder : PathTuple) (job : JobState) (name : QString) (localEntry : LocalInfo)
    (serverEntry : RemoteInfo) (dbEntry : SyncJournalFileRecord) (children : List DirEntry)
    (hv : (inBlackList || excludedFiles (folder.addName name)._target
      (localEntry.isDirectory || serverEntry.isDirectory) localEntry.isHidden) = true) :
    processEntry excludedFiles inBlackList folder job
        (DirEntry.mk name localEntry serverEntry dbEntry children)
      = if (localEntry.isDirectory || serverEntry.isDirectory) = true then
          subJobFinished { job with _childIgnored := true }
            (finishDirectory (folder.addName name) none
              (processEntries excludedFiles true (folder.addName name) {} children))
        else { job with _childIgnored := true } := by
  simp only [processEntry, handleExcluded, hv, if_true]

theorem processEntry_not_excluded (excludedFiles : ExclusionProvider) (inBlackList : Bool)
    (folder : PathTuple) (job : JobState) (name : QString) (localEntry : LocalInfo)
    (serverEntry : RemoteInfo) (dbEntry : SyncJournalFileRecord) (children : List DirEntry)
    (hv : (inBlackList || excludedFiles (folder.addName name)._target
      (localEntry.isDirectory || serverEntry.isDirectory) localEntry.isHidden) = false) :
    processEntry excludedFiles inBlackList folder job
        (DirEntry.mk name localEntry serverEntry dbEntry children)
      = if (localEntry.isDirectory || serverEntry.isDirectory) = true then
          subJobFinished (markModified job (decision localEntry serverEntry dbEntry))
            (finishDirectory (folder.addName name)
              (some (decision localEntry serverEntry dbEntry))
              (processEntries excludedFiles false (folder.addName name) {} children))
        else processFile job (folder.addName name) localEntry serverEntry dbEntry := by
  simp only [processEntry, handleExcluded, hv, Bool.false_eq_true, if_false]

theorem processEntry_directory (excludedFiles : ExclusionProvider) (inBlackList : Bool)
    (folder : PathTuple) (job : JobState) (entry : DirEntry) (hdir : entry.isDirectory = true) :
    (processEntry excludedFiles inBlackList folder job entry).discovered
      = job.discovered ++ (directoryJob excludedFiles inBlackList folder entry).discovered := by
  obtain ⟨name, localEntry, serverEntry, dbEntry, children⟩ := entry
  simp only [DirEntry.isDirectory] at hdir
  cases hv : (inBlackList || excludedFiles (folder.addName name)._target
    (localEntry.isDirectory || serverEntry.isDirectory) localEntry.isHidden)
  · rw [processEntry_not_excluded _ _ _ _ _ _ _ _ _ hv]
    rw [hdir] at hv
    simp only [directoryJob, DirEntry.path, DirEntry.tentative, DirEntry.excluded,
      DirEntry.children, hv, hdir, if_true, Bool.false_eq_true, if_false]
    rfl
  · rw [processEntry_excluded _ _ _ _ _ _ _ _ _ hv]
    rw [hdir] at hv
    simp only [directoryJob, DirEntry.path, DirEntry.tentative, DirEntry.excluded,
      DirEntry.children, hv, hdir, if_true]
    rfl

mutual
theorem processEntry_quiet (excludedFiles : ExclusionProvider) (inBlackList : Bool)
    (folder : PathTuple) (job : JobState) :
    (entry : DirEntry) → DirEntry.unchanged excludedFiles inBlackList folder entry = true →
      (processEntry excludedFiles inBlackList folder job entry).discovered = job.discovered ∧
      (processEntry excludedFiles inBlackList folder job entry)._childModified
        = job._childModified ∧
      (processEntry excludedFiles inBlackList folder job entry).retained = job.retained
  | DirEntry.mk name localEntry serverEntry dbEntry children, h => by
    simp only [DirEntry.unchanged] at h
    cases hv : (inBlackList || excludedFiles (folder.addName name)._target
      (localEntry.isDirectory || serverEntry.isDirectory) localEntry.isHidden)
    · rw [processEntry_not_excluded _ _ _ _ _ _ _ _ _ hv]
      rw [hv] at h
      have ih := processEntries_quiet excludedFiles false (folder.addName name) {} children
      cases hdir : (localEntry.isDirectory || serverEntry.isDirectory)
      · rw [hdir] at h
        simp only [Bool.false_or, Bool.and_eq_true, decide_eq_true_eq] at h
        simp only [Bool.false_eq_true, if_false]
        rw [processFile_of_noOp _ _ _ _ _ h.1]
        exact ⟨rfl, rfl, rfl⟩
      · rw [hdir] at h
        simp only [Bool.false_or, Bool.and_eq_true, decide_eq_true_eq, Bool.not_true] at h
        obtain ⟨h1, h2, h3⟩ := ih h.2
        simp only [if_true, h.1, markModified_noOp, finishDirectory_noOp, subJobFinished,
          h1, h2, h3]
        simp
    · rw [processEntry_excluded _ _ _ _ _ _ _ _ _ hv]
      rw [hv] at h
      have ih := processEntries_quiet excludedFiles true (folder.addName name) {} children
      cases hdir : (localEntry.isDirectory || serverEntry.isDirectory)
      · simp
      · rw [hdir] at h
        simp only [Bool.true_or, Bool.true_and, Bool.not_true, Bool.false_or] at h
        obtain ⟨h1, h2, h3⟩ := ih h
        simp only [if_true, finishDirectory, subJobFinished, h1, h2, h3]
        simp
theorem processEntries_quiet (excludedFiles : ExclusionProvider) (inBlackList : Bool)
    (folder : PathTuple) (job : JobState) :
    (entries : List DirEntry) →
      DirEntry.allUnchanged excludedFiles inBlackList folder entries = true →
      (processEntries excludedFiles inBlackList folder job entries).discovered
        = job.discovered ∧
      (processEntries excludedFiles inBlackList folder job entries)._childModified
        = job._childModified ∧
      (processEntries excludedFiles inBlackList folder job entries).retained = job.retained
  | [], _ => ⟨rfl, rfl, rfl⟩
  | entry :: entries, h => by
    simp only [DirEntry.allUnchanged, Bool.and_eq_true] at h
    simp only [processEntries]
    obtain ⟨a1, a2, a3⟩ := processEntry_quiet excludedFiles inBlackList folder job entry h.1
    obtain ⟨b1, b2, b3⟩ := processEntries_quiet excludedFiles inBlackList folder
      (processEntry excludedFiles inBlackList folder job entry) entries h.2
    exact ⟨b1.trans a1, b2.trans a2, b3.trans a3⟩
end

theorem processEntry_childIgnored_mono (excludedFiles : ExclusionProvider) (inBlackList : Bool)
    (folder : PathTuple) (job : JobState) (entry : DirEntry) (h : job._childIgnored = true) :
    (processEntry excludedFiles inBlackList folder job entry)._childIgnored = true := by
  obtain ⟨name, localEntry, serverEntry, dbEntry, children⟩ := entry
  cases hv : (inBlackList || excludedFiles (folder.addName name)._target
    (localEntry.isDirectory || serverEntry.isDirectory) localEntry.isHidden)
  · rw [processEntry_not_excluded _ _ _ _ _ _ _ _ _ hv]
    cases hdir : (localEntry.isDirectory || serverEntry.isDirectory)
    · simpa [processFile_childIgnored] using h
    · simp [subJobFinished, markModified, h]
  · rw [processEntry_excluded _ _ _ _ _ _ _ _ _ hv]
    cases hdir : (localEntry.isDirectory || serverEntry.isDirectory)
    · simp
    · simp [subJobFinished]

theorem processEntries_childIgnored_mono (excludedFiles : ExclusionProvider)
    (inBlackList : Bool) (folder : PathTuple) (entries : List DirEntry) (job : JobState)
    (h : job._childIgnored = true) :
    (processEntries excludedFiles inBlackList folder job entries)._childIgnored = true := by
  induction entries generalizing job with
  | nil => exact h
  | cons entry entries ih =>
    simp only [processEntries]
    exact ih _ (processEntry_childIgnored_mono _ _ _ _ _ h)

mutual
theorem processEntry_childIgnored (excludedFiles : ExclusionProvider) (inBlackList : Bool)
    (folder : PathTuple) (job : JobState) :
    (entry : DirEntry) → DirEntry.hasExcludedFile excludedFiles inBlackList folder entry = true →
      (processEntry excludedFiles inBlackList folder job entry)._childIgnored = true
  | DirEntry.mk name localEntry serverEntry dbEntry children, h => by
    simp only [DirEntry.hasExcludedFile] at h
    cases hv : (inBlackList || excludedFiles (folder.addName name)._target
      (localEntry.isDirectory || serverEntry.isDirectory) localEntry.isHidden)
    · rw [processEntry_not_excluded _ _ _ _ _ _ _ _ _ hv]
      rw [hv] at h
      have ih := processEntries_childIgnored excludedFiles false (folder.addName name) {} children
      cases hdir : (localEntry.isDirectory || serverEntry.isDirectory)
      · rw [hdir] at h
        simp at h
      · rw [hdir] at h
        simp only [if_true] at h
        simp [subJobFinished, finishDirectory_childIgnored, ih h]
    · rw [processEntry_excluded _ _ _ _ _ _ _ _ _ hv]
      cases hdir : (localEntry.isDirectory || serverEntry.isDirectory)
      · simp
      · simp [subJobFinished]
theorem processEntries_childIgnored (excludedFiles : ExclusionProvider) (inBlackList : Bool)
    (folder : PathTuple) (job : JobState) :
    (entries : List DirEntry) →
      DirEntry.anyExcludedFile excludedFiles inBlackList folder entries = true →
      (processEntries excludedFiles inBlackList folder job entries)._childIgnored = true
  | [], h => by simp [DirEntry.anyExcludedFile] at h
  | entry :: entries, h => by
    simp only [DirEntry.anyExcludedFile, Bool.or_eq_true] at h
    simp only [processEntries]
    rcases h with h | h
    · exact processEntries_childIgnored_mono _ _ _ _ _
        (processEntry_childIgnored excludedFiles inBlackList folder job entry h)
    · exact processEntries_childIgnored excludedFiles inBlackList folder _ entries h
end

theorem finishDirectory_no_delete (path : PathTuple) (tentative : Option Decision)
    (job : JobState) (hd : job.discovered = []) (hi : job._childIgnored = true) :
    ∀ item ∈ (finishDirectory path tentative job).discovered, item.2.isDelete = false := by
  unfold finishDirectory
  cases tentative with
  | none => simp [hd]
  | some d =>
    simp only [resolveOwnDecision, hi, Bool.or_true, Bool.and_true]
    cases hdel : d.isDelete
    · simp only [Bool.false_eq_true, if_false]
      cases d.emitsAction
      · simp [hd]
      · simp [hd, hdel]
    · simp [hd]

theorem finishDirectory_retained (path : PathTuple) (d : Decision) (job : JobState)
    (hr : job.retained = []) (hi : job._childIgnored = true) (hdel : d.isDelete = true) :
    (finishDirectory path (some d) job).retained = [path] := by
  simp [finishDirectory, resolveOwnDecision, hi, hdel, hr]

/-- C11: a directory whose walk meets no change other than excluded names, and
meets an excluded file, is not marked `_childModified`, is marked
`_childIgnored`, and is never decided as deleted: its job delivers no delete,
the walk of its parent delivers for it exactly what its job delivers, a
tentative delete of it ends as retained, and whatever the tentative decision
its resolution against the walk of its names is not a delete. -/
theorem excluded_file_blocks_delete (excludedFiles : ExclusionProvider) (inBlackList : Bool)
    (folder : PathTuple) (job : JobState) (entry : DirEntry) (tentative : Decision)
    (hdir : entry.isDirectory = true)
    (hquiet : DirEntry.allUnchanged excludedFiles
      (entry.excluded excludedFiles inBlackList folder) (entry.path folder)
      entry.children = true)
    (hexcluded : DirEntry.anyExcludedFile excludedFiles
      (entry.excluded excludedFiles inBlackList folder) (entry.path folder)
      entry.children = true) :
    (directoryJob excludedFiles inBlackList folder entry)._childModified = false ∧
    (directoryJob excludedFiles inBlackList folder entry)._childIgnored = true ∧
    (∀ item ∈ (directoryJob excludedFiles inBlackList folder entry).discovered,
      item.2.isDelete = false) ∧
    (processEntry excludedFiles inBlackList folder job entry).discovered
      = job.discovered ++ (directoryJob excludedFiles inBlackList folder entry).discovered ∧
    (∀ d, entry.tentative excludedFiles inBlackList folder = some d → d.isDelete = true →
      (directoryJob excludedFiles inBlackList folder entry).retained = [entry.path folder]) ∧
    (resolveOwnDecision tentative
      (processEntries excludedFiles (entry.excluded excludedFiles inBlackList folder)
        (entry.path folder) {} entry.children)).isDelete = false := by
  obtain ⟨hd, hm, hr⟩ := processEntries_quiet excludedFiles
    (entry.excluded excludedFiles inBlackList folder) (entry.path folder) {} entry.children
    hquiet
  have hi := processEntries_childIgnored excludedFiles
    (entry.excluded excludedFiles inBlackList folder) (entry.path folder) {} entry.children
    hexcluded
  refine ⟨?_, ?_, ?_, ?_, ?_, ?_⟩
  · unfold directoryJob
    rw [finishDirectory_childModified, hm]
  · unfold directoryJob
    rw [finishDirectory_childIgnored, hi]
  · exact finishDirectory_no_delete _ _ _ hd hi
  · exact processEntry_directory excludedFiles inBlackList folder job entry hdir
  · intro d ht hdel
    unfold directoryJob
    rw [ht]
    exact finishDirectory_retained _ d _ hr hi hdel
  · unfold resolveOwnDecision
    rw [hi]
    cases hdel : tentative.isDelete
    · simpa [OwnDecision.isDelete] using hdel
    · simp [OwnDecision.isDelete]

theorem excluded_file_blocks_delete_witness :
    draftsDirectory.isDirectory = true ∧
    DirEntry.allUnchanged excludeDrafts
      (draftsDirectory.excluded excludeDrafts false PathTuple.root)
      (draftsDirectory.path PathTuple.root) draftsDirectory.children = true ∧
    DirEntry.anyExcludedFile excludeDrafts
      (draftsDirectory.excluded excludeDrafts false PathTuple.root)
      (draftsDirectory.path PathTuple.root) draftsDirectory.children = true ∧
    draftsDirectory.tentative excludeDrafts false PathTuple.root
      = some Decision.localDrivenDelete ∧
    (processEntry excludeDrafts false PathTuple.root {} draftsDirectory).discovered = [] ∧
    (processEntry excludeDrafts false PathTuple.root {} draftsDirectory).retained
      = [PathTuple.root.addName (QString.ofString "docs")] ∧
    (∀ item ∈ (directoryJob excludeDrafts false PathTuple.root draftsDirectory).discovered,
      item.2.isDelete = false) :=
  ⟨by decide, by decide, by decide, by decide, by decide, by decide,
    (excluded_file_blocks_delete excludeDrafts false PathTuple.root {} draftsDirectory
      Decision.localDrivenDelete (by decide) (by decide) (by decide)).2.2.1⟩

/-! ## Theorems: abort and completion -/

theorem JobTree.finishedSignals_abort (job : JobTree) (h : job.pending = true) :
    job.abort.finishedSignals = 1 := by
  obtain ⟨queued, running, serverJob, n⟩ := job
  simp only [JobTree.pending, Bool.and_eq_true, decide_eq_true_eq] at h
  simp [JobTree.abort, JobTree.finishedSignals, h.1.1]

theorem JobTree.length_abortAll (jobs : List JobTree) :
    (JobTree.abortAll jobs).length = jobs.length := by
  induction jobs with
  | nil => rfl
  | cons job jobs ih => simp [JobTree.abortAll, ih]

theorem JobTree.childNotifications_abortAll (jobs : List JobTree)
    (h : JobTree.allPending jobs = true) :
    JobTree.childNotifications (JobTree.abortAll jobs) = jobs.length := by
  induction jobs with
  | nil => rfl
  | cons job jobs ih =>
    simp only [JobTree.allPending, Bool.and_eq_true] at h
    have h1 := JobTree.finishedSignals_abort job h.1
    have h2 := ih h.2
    simp only [JobTree.childNotifications] at h2 ⊢
    simp only [JobTree.abortAll, List.map_cons, List.sum_cons, List.length_cons, h1, h2]
    omega

mutual
theorem JobTree.signalledOnce_abort :
    (job : JobTree) → job.pending = true → job.abort.signalledOnce = true
  | JobTree.mk queued running serverJob n, h => by
    simp only [JobTree.pending, Bool.and_eq_true, decide_eq_true_eq] at h
    simp only [JobTree.abort, JobTree.signalledOnce, Bool.and_eq_true, decide_eq_true_eq]
    exact ⟨⟨by omega, JobTree.allSignalledOnce_abortAll queued h.1.2⟩,
      JobTree.allSignalledOnce_abortAll running h.2⟩
theorem JobTree.allSignalledOnce_abortAll :
    (jobs : List JobTree) → JobTree.allPending jobs = true →
      JobTree.allSignalledOnce (JobTree.abortAll jobs) = true
  | [], _ => rfl
  | job :: jobs, h => by
    simp only [JobTree.allPending, Bool.and_eq_true] at h
    simp only [JobTree.abortAll, JobTree.allSignalledOnce, Bool.and_eq_true]
    exact ⟨JobTree.signalledOnce_abort job h.1, JobTree.allSignalledOnce_abortAll jobs h.2⟩
end

/-- C12: calling `abort` on a job that has not completed, with `N` queued and
`M` running children, still has `N` and `M` children to account for and yields
`N + M + 1` `finished()` notifications in total from the children and the job
itself; every instance signals exactly once, none twice and none zero times. -/
theorem abort_notifications (queued running : List JobTree) (serverJob : Bool)
    (h : (JobTree.mk queued running serverJob 0).pending = true) :
    (JobTree.mk queued running serverJob 0).abort.queued.length = queued.length ∧
    (JobTree.mk queued running serverJob 0).abort.running.length = running.length ∧
    (JobTree.mk queued running serverJob 0).abort.notifications
      = queued.length + running.length + 1 ∧
    (JobTree.mk queued running serverJob 0).abort.finishedSignals = 1 ∧
    (∀ child ∈ (JobTree.mk queued running serverJob 0).abort.queued ++
        (JobTree.mk queued running serverJob 0).abort.running, child.finishedSignals = 1) ∧
    (JobTree.mk queued running serverJob 0).abort.signalledOnce = true := by
  have hp := h
  simp only [JobTree.pending, Bool.and_eq_true, decide_eq_true_eq] at hp
  obtain ⟨⟨_, hq⟩, hr⟩ := hp
  have hall := JobTree.signalledOnce_abort _ h
  refine ⟨?_, ?_, ?_, rfl, ?_, hall⟩
  · simp [JobTree.abort, JobTree.queued, JobTree.length_abortAll]
  · simp [JobTree.abort, JobTree.running, JobTree.length_abortAll]
  · simp [JobTree.abort, JobTree.notifications, JobTree.queued, JobTree.running,
      JobTree.finishedSignals, JobTree.childNotifications_abortAll _ hq,
      JobTree.childNotifications_abortAll _ hr]
  · have key : ∀ jobs : List JobTree, JobTree.allPending jobs = true →
        ∀ child ∈ JobTree.abortAll jobs, child.finishedSignals = 1 := by
      intro jobs
      induction jobs with
      | nil => intro _ child hc; simp [JobTree.abortAll] at hc
      | cons job jobs ih =>
        intro hj child hc
        simp only [JobTree.allPending, Bool.and_eq_true] at hj
        simp only [JobTree.abortAll, List.mem_cons] at hc
        rcases hc with rfl | hc
        · exact JobTree.finishedSignals_abort job hj.1
        · exact ih hj.2 child hc
    intro child hc
    simp only [JobTree.abort, JobTree.queued, JobTree.running, List.mem_append] at hc
    rcases hc with hc | hc
    · exact key queued hq child hc
    · exact key running hr child hc

theorem abort_notifications_witness :
    (JobTree.mk [JobTree.mk [] [] false 0, JobTree.mk [] [] false 0]
        [JobTree.mk [JobTree.mk [] [] false 0] [] true 0] true 0).pending = true ∧
    (JobTree.mk [JobTree.mk [] [] false 0, JobTree.mk [] [] false 0]
        [JobTree.mk [JobTree.mk [] [] false 0] [] true 0] true 0).abort.notifications
      = 2 + 1 + 1 :=
  ⟨by decide,
    (abort_notifications [JobTree.mk [] [] false 0, JobTree.mk [] [] false 0]
      [JobTree.mk [JobTree.mk [] [] false 0] [] true 0] true (by decide)).2.2.1⟩

/-! ## Theorems: `addName` as an independent join -/

theorem QString.slash_append_eq (p n : QString) :
    (p.push '/').append n = QString.str (p.toList ++ '/' :: n.toList) := by
  cases n <;> simp [QString.push, QString.append, QString.toList]

theorem PathTuple.buildString_eq_join (original n other : QString) :
    PathTuple.buildString original
        (if original.isEmpty then n else (original.push '/').append n) n other
      = (if other.isEmpty then n else (other.push '/').append n) := by
  unfold PathTuple.buildString
  by_cases he : other.eq original = true
  · have hl : other.toList = original.toList := (QString.eq_iff _ _).mp he
    simp only [he, if_true, QString.isEmpty, QString.slash_append_eq, hl]
  · simp only [he, Bool.false_eq_true, if_false]

theorem PathTuple.addName_eq_join (t : PathTuple) (n : QString) :
    t.addName n
      = { _original := if t._original.isEmpty then n else (t._original.push '/').append n
          _target := if t._target.isEmpty then n else (t._target.push '/').append n
          _server := if t._server.isEmpty then n else (t._server.push '/').append n
          _local := if t._local.isEmpty then n else (t._local.push '/').append n } := by
  simp only [PathTuple.addName, PathTuple.buildString_eq_join]

theorem QString.join_join (c a b : QString) (ha : a.isEmpty = false) :
    (if (if c.isEmpty then a else (c.push '/').append a).isEmpty then b
      else ((if c.isEmpty then a else (c.push '/').append a).push '/').append b)
      = (if c.isEmpty then (a.push '/').append b
         else (c.push '/').append ((a.push '/').append b)) := by
  by_cases hc : c.isEmpty = true
  · simp only [hc, if_true, ha, Bool.false_eq_true, if_false]
  · simp only [hc, if_false, QString.slash_append_ne_nil, Bool.false_eq_true]
    simp [QString.slash_append_eq, QString.toList]

theorem PathTuple.addName_all_equal (t : PathTuple) (n : QString)
    (ht : t._target = t._original) (hs : t._server = t._original)
    (hl : t._local = t._original) :
    (t.addName n)._target = (t.addName n)._original ∧
    (t.addName n)._server = (t.addName n)._original ∧
    (t.addName n)._local = (t.addName n)._original := by
  rw [PathTuple.addName_eq_join]
  simp only [ht, hs, hl, and_self]

theorem PathTuple.descend_all_equal (names : List QString) (t : PathTuple)
    (ht : t._target = t._original) (hs : t._server = t._original)
    (hl : t._local = t._original) :
    (t.descend names)._target = (t.descend names)._original ∧
    (t.descend names)._server = (t.descend names)._original ∧
    (t.descend names)._local = (t.descend names)._original := by
  induction names generalizing t with
  | nil => exact ⟨ht, hs, hl⟩
  | cons n ns ih =>
    rw [PathTuple.descend_cons]
    obtain ⟨h1, h2, h3⟩ := PathTuple.addName_all_equal t n ht hs hl
    exact ih (t.addName n) h1 h2 h3

theorem QString.joinPath_eq_iff (p q n : List Char) :
    QString.joinPath p n = QString.joinPath q n ↔ p = q := by
  constructor
  · intro h
    unfold QString.joinPath at h
    cases p with
    | nil =>
      cases q with
      | nil => rfl
      | cons d ds =>
        simp only [List.isEmpty_nil, if_true, List.isEmpty_cons, Bool.false_eq_true,
          if_false] at h
        have hlen := congrArg List.length h
        simp at hlen
        omega
    | cons c cs =>
      cases q with
      | nil =>
        simp only [List.isEmpty_nil, if_true, List.isEmpty_cons, Bool.false_eq_true,
          if_false] at h
        have hlen := congrArg List.length h
        simp at hlen
        omega
      | cons d ds =>
        simp only [List.isEmpty_cons, Bool.false_eq_true, if_false] at h
        exact List.append_cancel_right h
  · intro h
    rw [h]

/-- C13: the shortcut of `addName` that rebuilds a component from the child's
`_original` never changes the result: each of the four components of
`t.addName n` is the independent join of the parent's component with `n`,
that is `n` when the parent's component is empty and that component
`+ "/" + n` otherwise. -/
theorem addName_independent_join (t : PathTuple) (n : QString) :
    (t.addName n)._original
      = (if t._original.isEmpty then n else (t._original.push '/').append n) ∧
    (t.addName n)._target
      = (if t._target.isEmpty then n else (t._target.push '/').append n) ∧
    (t.addName n)._server
      = (if t._server.isEmpty then n else (t._server.push '/').append n) ∧
    (t.addName n)._local
      = (if t._local.isEmpty then n else (t._local.push '/').append n) := by
  rw [PathTuple.addName_eq_join]
  exact ⟨rfl, rfl, rfl, rfl⟩

/-- C14: `addName` is associative from any starting tuple: for every tuple `t`,
every non-empty name `a` and every name `b`, `t.addName a` followed by
`addName b` equals `t.addName (a + "/" + b)` in all four components. -/
theorem addName_assoc (t : PathTuple) (a b : QString) (ha : a.isEmpty = false) :
    (t.addName a).addName b = t.addName ((a.push '/').append b) := by
  rw [PathTuple.addName_eq_join (t.addName a) b, PathTuple.addName_eq_join t a,
    PathTuple.addName_eq_join t ((a.push '/').append b)]
  simp only [QString.join_join _ a b ha]

theorem addName_assoc_witness :
    (QString.ofString "a").isEmpty = false ∧
    (({ _original := QString.ofString "old", _target := QString.ofString "new",
        _server := QString.null, _local := QString.ofString "old" } : PathTuple).addName
          (QString.ofString "a")).addName (QString.ofString "b")
      = ({ _original := QString.ofString "old", _target := QString.ofString "new",
           _server := QString.null, _local := QString.ofString "old" } : PathTuple).addName
          (((QString.ofString "a").push '/').append (QString.ofString "b")) :=
  ⟨by decide,
    addName_assoc
      { _original := QString.ofString "old", _target := QString.ofString "new",
        _server := QString.null, _local := QString.ofString "old" }
      (QString.ofString "a") (QString.ofString "b") (by decide)⟩

/-- C15: every tuple obtained from the empty root by a finite sequence of
`addName` calls has its four components `_original`, `_target`, `_server` and
`_local` all equal. -/
theorem descend_root_components_equal (names : List QString) :
    (PathTuple.root.descend names)._target = (PathTuple.root.descend names)._original ∧
    (PathTuple.root.descend names)._server = (PathTuple.root.descend names)._original ∧
    (PathTuple.root.descend names)._local = (PathTuple.root.descend names)._original :=
  PathTuple.descend_all_equal names PathTuple.root rfl rfl rfl

/-- C16: for every tuple `t` and name `n`, each of `_target`, `_server` and
`_local` of `t.addName n` equals (`operator==`) the child's `_original` if and
only if the corresponding component of `t` equals `t._original`. -/
theorem addName_eq_original_iff (t : PathTuple) (n : QString) :
    ((t.addName n)._target.eq (t.addName n)._original = true
      ↔ t._target.eq t._original = true) ∧
    ((t.addName n)._server.eq (t.addName n)._original = true
      ↔ t._server.eq t._original = true) ∧
    ((t.addName n)._local.eq (t.addName n)._original = true
      ↔ t._local.eq t._original = true) := by
  simp only [QString.eq_iff, PathTuple.toList_original_addName,
    PathTuple.toList_target_addName, PathTuple.toList_server_addName,
    PathTuple.toList_local_addName, QString.joinPath_eq_iff, and_self]

/-! ## Theorems: validity against emptiness -/

/-- C17: a `RemoteInfo` or `LocalInfo` whose name is the empty but non-null
string is valid, yet `addName` with that name applied to the empty root tuple
gives a tuple whose four components are all still empty and compare equal to
those of the root. -/
theorem valid_empty_name_stays_at_root :
    (QString.str []).isNull = false ∧ (QString.str []).isEmpty = true ∧
    (∀ r : RemoteInfo, RemoteInfo.isValid { r with name := QString.str [] } = true) ∧
    (∀ l : LocalInfo, LocalInfo.isValid { l with name := QString.str [] } = true) ∧
    PathTuple.sameComponents (PathTuple.root.addName (QString.str [])) PathTuple.root = true ∧
    (PathTuple.root.addName (QString.str []))._original.isEmpty = true ∧
    (PathTuple.root.addName (QString.str []))._target.isEmpty = true ∧
    (PathTuple.root.addName (QString.str []))._server.isEmpty = true ∧
    (PathTuple.root.addName (QString.str []))._local.isEmpty = true :=
  ⟨rfl, rfl, fun _ => rfl, fun _ => rfl, by decide, by decide, by decide, by decide, by decide⟩

/-! ## Theorems: `ProcessDirectoryJob` -/

/-- C18: a freshly constructed `ProcessDirectoryJob` stores the given directory
item, server query mode and local query mode unchanged, and starts with
`_hasServerEntries`, `_hasLocalEntries`, `_childModified` and `_childIgnored`
all false, no server or local entries, no queued or running child jobs, and
the empty root `PathTuple` as its current folder. -/
theorem ProcessDirectoryJob_ctor_state {SyncFileItemPtr DiscoveryPhasePtr Ref : Type}
    (dirItem : SyncFileItemPtr) (queryServer queryLocal : QueryMode) (data : DiscoveryPhasePtr)
    (parent : Ref) :
    (ProcessDirectoryJob.ctor dirItem queryServer queryLocal data parent)._dirItem = dirItem ∧
    (ProcessDirectoryJob.ctor dirItem queryServer queryLocal data parent)._queryServer
      = queryServer ∧
    (ProcessDirectoryJob.ctor dirItem queryServer queryLocal data parent)._queryLocal
      = queryLocal ∧
    (ProcessDirectoryJob.ctor dirItem queryServer queryLocal data parent)._hasServerEntries
      = false ∧
    (ProcessDirectoryJob.ctor dirItem queryServer queryLocal data parent)._hasLocalEntries
      = false ∧
    (ProcessDirectoryJob.ctor dirItem queryServer queryLocal data parent)._childModified
      = false ∧
    (ProcessDirectoryJob.ctor dirItem queryServer queryLocal data parent)._childIgnored
      = false ∧
    (ProcessDirectoryJob.ctor dirItem queryServer queryLocal data parent)._serverEntries = [] ∧
    (ProcessDirectoryJob.ctor dirItem queryServer queryLocal data parent)._localEntries = [] ∧
    (ProcessDirectoryJob.ctor dirItem queryServer queryLocal data parent)._queuedJobs = [] ∧
    (ProcessDirectoryJob.ctor dirItem queryServer queryLocal data parent)._runningJobs = [] ∧
    (ProcessDirectoryJob.ctor dirItem queryServer queryLocal data parent)._currentFolder
      = PathTuple.root ∧
    PathTuple.root
      = { _original := QString.null, _target := QString.null, _server := QString.null,
          _local := QString.null } :=
  ⟨rfl, rfl, rfl, rfl, rfl, rfl, rfl, rfl, rfl, rfl, rfl, rfl, rfl⟩

end OCC
